import Mathlib

/-! gomongo: filter compiler, pipeline stages and the session builder

A shallow embedding of `filter.go`, `pipeline.go` and, of `set.go`, the
pipeline builder and the normalizer.

Modelling conventions.

* A Go `interface{}` is an `Any`: one constructor per dynamic type the
  program inspects or stores.  Go `int` and `int64` payloads are carried as
  mathematical integers; the code never does arithmetic on them.
* A Go pointer is an `Option`: `none` is the nil pointer.
* A `bson.M` (a Go map with string keys) is an association list without
  repeated keys; `M.set` is the assignment `m[k] = v` and `M.get` the lookup.
  The order of the entries is an artefact of the representation: equal lists
  denote equal maps.
* A Go panic is the `error` side of `Except Panic`.
-/

namespace Gomongo

/-- The runtime failures a call can end in. -/
inductive Panic where
  | nilDeref
  | typeAssertion
  | indexOutOfRange
  deriving DecidableEq, Repr

/-- A `time.Time`, reduced to the instant it denotes. -/
structure Time where
  unixNano : Int
  deriving DecidableEq, Repr

mutual
/-- The dynamic values an `interface{}` holds in this program. -/
inductive Any where
  | nil
  | bool (b : Bool)
  | int (n : Int)
  | int64 (n : Int)
  | float64 (bits : Nat)
  | str (s : String)
  | time (t : Time)
  | bytes (bs : List Nat)
  | intPtr (p : Option Int)
  | strs (xs : List String)
  | slice (xs : List Any)
  | doc (m : List (String × Any))
  | docs (ms : List (List (String × Any)))
  | filter (p : Option Filter)
/-- The `Filter` struct: `Items []*Filter`, `Field`, `Op`, `Value`. -/
inductive Filter where
  | mk (Items : List (Option Filter)) (Field : String) (Op : String) (Value : Any)
end

/-- The type `bson.M`. -/
abbrev BsonM := List (String × Any)

/-- Assignment `m[k] = v` on a map: an existing key keeps its place. -/
def M.set : BsonM → String → Any → BsonM
  | [], k, v => [(k, v)]
  | (k0, v0) :: rest, k, v => if k0 = k then (k, v) :: rest else (k0, v0) :: M.set rest k v

/-- Lookup `m[k]`, with `none` for an absent key. -/
def M.get : BsonM → String → Option Any
  | [], _ => none
  | (k0, v0) :: rest, k => if k0 = k then some v0 else M.get rest k

/-- The keys of a map. -/
def M.keys (m : BsonM) : List String := m.map Prod.fst

/-- The type `FilterOptions`, a named string type. -/
abbrev FilterOptions := String

def OpAnd : FilterOptions := "$and"
def OpOr : FilterOptions := "$or"
def OpNot : FilterOptions := "$not"
def OpEq : FilterOptions := "$eq"
def OpNe : FilterOptions := "$ne"
def OpGte : FilterOptions := "$gte"
def OpGt : FilterOptions := "$gt"
def OpLt : FilterOptions := "$lt"
def OpLte : FilterOptions := "$lte"
def OpRange : FilterOptions := "$range"
def OpContains : FilterOptions := "$contains"
def OpStartWith : FilterOptions := "$startwith"
def OpEndWith : FilterOptions := "$endwith"
def OpIn : FilterOptions := "$in"
def OpNin : FilterOptions := "$nin"
def OpSort : FilterOptions := "$sort"
def OpBetween : FilterOptions := "between"
def OpExists : FilterOptions := "$exists"
def OpBetweenEq : FilterOptions := "betweenEq"
def OpRangeEq : FilterOptions := "rangeEq"
def OpElemMatch : FilterOptions := "$elemMatch"

def Filter.Items : Filter → List (Option Filter)
  | .mk items _ _ _ => items

def Filter.Field : Filter → String
  | .mk _ field _ _ => field

def Filter.Op : Filter → FilterOptions
  | .mk _ _ op _ => op

def Filter.Value : Filter → Any
  | .mk _ _ _ v => v

/-- The assignment `f.Value = v`. -/
def Filter.setValue : Filter → Any → Filter
  | .mk items field op _, v => .mk items field op v

/-- The struct `new(Filter)`: every field at its zero value. -/
def Filter.zero : Filter := .mk [] "" "" .nil

def newFilter (field : String) (op : FilterOptions) (v : Any)
    (items : List (Option Filter)) : Filter :=
  .mk items field op v

/-- The function `strings.ToLower`, on its ASCII letters. The code only compares
the result with `asc`, and no rune outside ASCII has `a`, `s` or `c` as its lower
case, so the comparison comes out the same. -/
def ToLower (s : String) : String := ⟨s.data.map Char.toLower⟩

def And (items : List (Option Filter)) : Filter := newFilter "" OpAnd .nil items

def Or (items : List (Option Filter)) : Filter := newFilter "" OpOr .nil items

/-- The builder `Sort` (the bare name is reserved in Lean). -/
def SortNode (field : String) (sorttype : String) : Filter :=
  let sort : Int := if ToLower sorttype = "asc" then 1 else -1
  newFilter field OpSort (.int sort) []

def Eq (field : String) (v : Any) : Filter := newFilter field OpEq v []

def Not (item : Option Filter) : Filter := newFilter "" OpNot .nil [item]

def Ne (field : String) (v : Any) : Filter := newFilter field OpNe v []

def Gte (field : String) (v : Any) : Filter := newFilter field OpGte v []

def Gt (field : String) (v : Any) : Filter := newFilter field OpGt v []

def Lt (field : String) (v : Any) : Filter := newFilter field OpLt v []

def Lte (field : String) (v : Any) : Filter := newFilter field OpLte v []

def Range (field : String) (lo hi : Any) : Filter :=
  (newFilter field OpRange .nil []).setValue (.slice [lo, hi])

def Between (field : String) (gt lt : Any) : Filter :=
  (newFilter field OpBetween .nil []).setValue (.slice [gt, lt])

def RangeEq (field : String) (lo hi : Any) : Filter :=
  (newFilter field OpRangeEq .nil []).setValue (.slice [lo, hi])

def BetweenEq (field : String) (gte lte : Any) : Filter :=
  (newFilter field OpBetweenEq .nil []).setValue (.slice [gte, lte])

def In (field : String) (inValues : List Any) : Filter :=
  .mk [] field OpIn (.slice inValues)

def Nin (field : String) (ninValues : List Any) : Filter :=
  .mk [] field OpNin (.slice ninValues)

def Contains (field : String) (values : List String) : Filter :=
  .mk [] field OpContains (.strs values)

def StartWith (field : String) (value : String) : Filter :=
  .mk [] field OpStartWith (.str value)

def EndWith (field : String) (value : String) : Filter :=
  .mk [] field OpEndWith (.str value)

def Exists (field : String) (value : Bool) : Filter :=
  .mk [] field OpExists (.bool value)

def ElemMatch (field : String) (filter : Option Filter) : Filter :=
  .mk [] field OpElemMatch (.filter filter)

/-- What a run takes from outside the repository: the readings of `time.Now()`
(`now k` is the k-th reading inside one branch) and how `fmt` renders an operand
of `%s` that is not a string. -/
structure Env where
  now : Nat → Time
  fmtS : Any → String

/-- The operand of a `%s` verb: a string is copied as it is. -/
def Env.sprintS (env : Env) : Any → String
  | .str s => s
  | v => env.fmtS v

/-- The type assertion `v.([]interface{})`. -/
def asSlice : Any → Except Panic (List Any)
  | .slice xs => .ok xs
  | _ => .error .typeAssertion

/-- The type assertion `v.([]string)`. -/
def asStrs : Any → Except Panic (List String)
  | .strs xs => .ok xs
  | _ => .error .typeAssertion

/-- The type assertion `v.(int)`. -/
def asInt : Any → Except Panic Int
  | .int n => .ok n
  | _ => .error .typeAssertion

/-- The type assertion `v.(time.Time)`. -/
def asTime : Any → Except Panic Time
  | .time t => .ok t
  | _ => .error .typeAssertion

/-- The index expression `xs[i]`. -/
def index {α : Type} (xs : List α) (i : Nat) : Except Panic α :=
  match xs.get? i with
  | some x => .ok x
  | none => .error .indexOutOfRange

/-- The comparison `v != nil` on an interface value. -/
def Any.notNil : Any → Bool
  | .nil => false
  | _ => true

/-- The body shared by the cases `OpBetween, OpRange` (keys `$gt`, `$lt`) and
`OpBetweenEq, OpRangeEq` (keys `$gte`, `$lte`): a type switch on the first
bound. -/
def buildBounds (env : Env) (field : String) (value : Any) (lower upper : String) :
    Except Panic BsonM := do
  let xs ← asSlice value
  let first ← index xs 0
  match first with
  | .int _ =>
    let (gt, lt) ←
      if value.notNil then do
        let g ← asInt (← index (← asSlice value) 0)
        let l ← asInt (← index (← asSlice value) 1)
        pure (g, l)
      else pure ((0 : Int), (0 : Int))
    pure (M.set [] field (.doc [(lower, .int gt), (upper, .int lt)]))
  | .time _ =>
    let (gt, lt) ←
      if value.notNil then do
        let g ← asTime (← index (← asSlice value) 0)
        let l ← asTime (← index (← asSlice value) 1)
        pure (g, l)
      else pure (env.now 0, env.now 1)
    pure (M.set [] field (.doc [(lower, .time gt), (upper, .time lt)]))
  | _ => pure []

/-- The regular-expression document with the case-insensitive option. -/
def regexDoc (pattern : String) : Any :=
  .doc [("$regex", .str pattern), ("$options", .str "i")]

/-- The case `OpContains`. -/
def buildContains (field : String) (value : Any) : Except Panic BsonM := do
  if (← asStrs value).length > 1 then
    let bfs := (← asStrs value).foldl
      (fun bfs ff => bfs ++ [Any.doc (M.set [] field (regexDoc (".*" ++ ff ++ ".*")))]) []
    pure (M.set [] "$or" (.slice bfs))
  else
    let ff ← index (← asStrs value) 0
    pure (M.set [] field (regexDoc (".*" ++ ff ++ ".*")))

mutual
/-- The function `BuildFilter` on a non-nil node. -/
def BuildFilter (env : Env) : Filter → Except Panic BsonM
  | .mk items field op value =>
    if op = OpAnd ∨ op = OpOr then do
      let insideArr ← buildItems env [] items
      pure (M.set [] op (.slice insideArr))
    else if op = OpEq ∨ op = OpNe ∨ op = OpGt ∨ op = OpGte ∨ op = OpLt ∨ op = OpLte
        ∨ op = OpIn ∨ op = OpNin ∨ op = OpSort ∨ op = OpExists then
      pure (M.set [] field (.doc (M.set [] op value)))
    else if op = OpBetween ∨ op = OpRange then
      buildBounds env field value "$gt" "$lt"
    else if op = OpBetweenEq ∨ op = OpRangeEq then
      buildBounds env field value "$gte" "$lte"
    else if op = OpStartWith then
      pure (M.set [] field (regexDoc ("^" ++ env.sprintS value ++ ".*$")))
    else if op = OpEndWith then
      pure (M.set [] field (regexDoc ("^.*" ++ env.sprintS value ++ "$")))
    else if op = OpContains then
      buildContains field value
    else if op = OpNot then
      pure []
    else if op = OpElemMatch then
      match value with
      | .filter p => do
        let inner ← BuildFilterPtr env p
        pure (M.set [] field (.doc (M.set [] op (.doc inner))))
      | _ => .error .typeAssertion
    else pure []
/-- The function `BuildFilter` on a `*Filter`: reading `filter.Op` through a nil
pointer fails. -/
def BuildFilterPtr (env : Env) : Option Filter → Except Panic BsonM
  | none => .error .nilDeref
  | some f => BuildFilter env f
/-- The loop over `filter.Items`, with `insideArr` as the accumulator. -/
def buildItems (env : Env) (insideArr : List Any) :
    List (Option Filter) → Except Panic (List Any)
  | [] => pure insideArr
  | fi :: rest => do
    let fRes ← BuildFilterPtr env fi
    buildItems env (insideArr ++ [.doc fRes]) rest
end

/-! ## pipeline.go -/

def PipeMatch (env : Env) (filter : Option Filter) : Except Panic BsonM := do
  let compiled ← BuildFilterPtr env filter
  pure [("$match", .doc compiled)]

def PipeLimit (limit : Int) : BsonM := [("$limit", .int limit)]

def PipeSkip (skip : Int) : BsonM := [("$skip", .int skip)]

def PipeSort (field : String) (asc : Bool) : BsonM :=
  let s : Int := if !asc then -1 else 1
  [("$sort", .doc [(field, .int s)])]

/-- Modelled from the spec: the struct `PipeSortParams` is declared outside the
files at hand; `PipeSortMultiple` reads a string `Field` and a boolean
`Ascending` from it (the spec writes a parameter as a pair of a field and a
direction). -/
structure PipeSortParams where
  Field : String
  Ascending : Bool

/-- The loop of `PipeSortMultiple`, with `sortM` as the accumulator. -/
def sortLoop (sortM : BsonM) : List PipeSortParams → BsonM
  | [] => sortM
  | p :: rest =>
    let s : Int := if !p.Ascending then -1 else 1
    sortLoop (M.set sortM p.Field (.int s)) rest

def PipeSortMultiple (sortParams : List PipeSortParams) : BsonM :=
  let sortM := sortLoop [] sortParams
  [("$sort", .doc sortM)]

/-! ## set.go: the session builder

The fields `gom` and `command` of `Set` point into the connection and command
layers; no function below reads them and they are left out. -/

structure SetParams where
  TableName : String
  Result : Any
  Filter : Option Filter
  Pipe : Option (List BsonM)
  SortField : String
  SortBy : String
  Skip : Int
  Limit : Int
  Timeout : Int

/-- The struct `Set`. A nil slice `pipe` is `none`; the pointers `sortField`,
`sortBy`, `skip`, `limit` are options; `filter` is an `interface{}`. -/
structure Set where
  tableName : String
  result : Any
  filter : Any
  pipe : Option (List BsonM)
  sortField : Option String
  sortBy : Option Int
  skip : Option Int
  limit : Option Int
  contextTimeout : Int

/-- The struct `new(Set)`. -/
def Set.zero : Set :=
  ⟨"", .nil, .nil, none, none, none, none, none, 0⟩

def Set.reset (s : Set) : Set :=
  { s with filter := .doc [], limit := none, pipe := none, result := .nil, skip := none,
           sortBy := none, sortField := none, tableName := "" }

def Set.Table (s : Set) (tableName : String) : Set := { s with tableName := tableName }

def Set.Result (s : Set) (result : Any) : Set := { s with result := result }

def Set.Skip (s : Set) (skip : Int) : Set := { s with skip := some skip }

def Set.Limit (s : Set) (limit : Int) : Set := { s with limit := some limit }

def Set.Sort (s : Set) (field sortBy : String) : Set :=
  let sort : Int := if ToLower sortBy = "asc" then 1 else -1
  { s with sortField := some field, sortBy := some sort }

def Set.Filter (env : Env) (s : Set) (filter : Option Filter) : Except Panic Set :=
  match filter with
  | some f => do
    let main ← BuildFilter env f
    pure { s with filter := .doc main }
  | none => pure { s with filter := .doc [] }

def Set.Pipe (s : Set) (pipe : Option (List BsonM)) : Set := { s with pipe := pipe }

def Set.Timeout (s : Set) (seconds : Int) : Set := { s with contextTimeout := seconds }

/-- The type assertion `v.(bson.M)`. -/
def asDoc : Any → Except Panic BsonM
  | .doc m => .ok m
  | _ => .error .typeAssertion

def Set.buildPipe (s : Set) : Except Panic (List BsonM) := do
  let pipe0 : List BsonM := []
  let pipe1 ←
    match s.pipe with
    | some p => pure p
    | none =>
      if s.filter.notNil then do
        let m ← asDoc s.filter
        pure (pipe0 ++ [[("$match", Any.doc m)]])
      else pure pipe0
  let pipe2 := if s.skip ≠ none then pipe1 ++ [[("$skip", Any.intPtr s.skip)]] else pipe1
  let pipe3 := if s.limit ≠ none then pipe2 ++ [[("$limit", Any.intPtr s.limit)]] else pipe2
  let pipe4 :=
    match s.sortField with
    | some field => pipe3 ++ [[("$sort", Any.doc [(field, Any.intPtr s.sortBy)])]]
    | none => pipe3
  pure pipe4

def newSet (env : Env) (params : Option SetParams) : Except Panic Set :=
  match params with
  | none =>
    pure { Set.zero with filter := .doc [], pipe := none, skip := none, limit := none,
                         result := .nil, tableName := "", sortField := none, sortBy := none,
                         contextTimeout := 30 }
  | some params => do
    let s0 : Set := { Set.zero with filter := .doc [] }
    let s1 ← (if params.Filter.isSome then s0.Filter env params.Filter else pure s0)
    let s2 := if params.Pipe.isSome then s1.Pipe params.Pipe else s1
    let s3 := if params.Skip ≠ 0 then s2.Skip params.Skip else s2
    let s4 := if params.Limit ≠ 0 then s3.Limit params.Limit else s3
    let s5 := if params.Result.notNil then s4.Result params.Result else s4
    let s6 := if params.TableName ≠ "" then s5.Table params.TableName else s5
    let s7 := if params.SortField ≠ "" then s6.Sort params.SortField params.SortBy else s6
    let s8 := if params.Timeout = 0 then s7.Timeout 30 else s7.Timeout params.Timeout
    pure s8

/-- One call of a setter on the builder. -/
inductive Call where
  | skip (n : Int)
  | limit (n : Int)
  | sort (field sortBy : String)
  | filter (f : Option Filter)

/-- Which setter a call is: 0 `Skip`, 1 `Limit`, 2 `Sort`, 3 `Filter`. -/
def Call.kind : Call → Nat
  | .skip _ => 0
  | .limit _ => 1
  | .sort _ _ => 2
  | .filter _ => 3

def Call.run (env : Env) (s : Set) : Call → Except Panic Set
  | .skip n => pure (s.Skip n)
  | .limit n => pure (s.Limit n)
  | .sort field sortBy => pure (s.Sort field sortBy)
  | .filter f => s.Filter env f

/-- A sequence of setter calls, made from left to right. -/
def runCalls (env : Env) (s : Set) : List Call → Except Panic Set
  | [] => pure s
  | c :: rest => do
    let s1 ← c.run env s
    runCalls env s1 rest

/-- The builder states the package can make: `newSet`, then any calls of the
methods of `Set`. -/
inductive Reachable (env : Env) : Set → Prop where
  | new (params : Option SetParams) (s : Set) : newSet env params = .ok s → Reachable env s
  | reset (s : Set) : Reachable env s → Reachable env s.reset
  | table (s : Set) (tableName : String) : Reachable env s → Reachable env (s.Table tableName)
  | result (s : Set) (r : Any) : Reachable env s → Reachable env (s.Result r)
  | skip (s : Set) (n : Int) : Reachable env s → Reachable env (s.Skip n)
  | limit (s : Set) (n : Int) : Reachable env s → Reachable env (s.Limit n)
  | sort (s : Set) (field sortBy : String) : Reachable env s → Reachable env (s.Sort field sortBy)
  | filter (s s1 : Set) (f : Option Filter) :
      Reachable env s → Set.Filter env s f = .ok s1 → Reachable env s1
  | pipe (s : Set) (p : Option (List BsonM)) : Reachable env s → Reachable env (s.Pipe p)
  | timeout (s : Set) (seconds : Int) : Reachable env s → Reachable env (s.Timeout seconds)

/-- The calls of one setter in a sequence, in the order they were made. -/
def callsOf (k : Nat) (calls : List Call) : List Call :=
  calls.filter (fun c => c.kind = k)

/-- The stage list `buildPipe` adds for `skip`. -/
def skipPart (s : Set) : List BsonM :=
  match s.skip with
  | some n => [[("$skip", Any.intPtr (some n))]]
  | none => []

/-- The stage list `buildPipe` adds for `limit`. -/
def limitPart (s : Set) : List BsonM :=
  match s.limit with
  | some n => [[("$limit", Any.intPtr (some n))]]
  | none => []

/-- The stage list `buildPipe` adds for the sort field. -/
def sortPart (s : Set) : List BsonM :=
  match s.sortField with
  | some field => [[("$sort", Any.doc [(field, Any.intPtr s.sortBy)])]]
  | none => []

/-- The head of the built pipeline: the explicit pipeline when one is set,
otherwise the single `$match` stage of the compiled filter `m`. -/
def headPart (s : Set) (m : BsonM) : List BsonM :=
  match s.pipe with
  | some p => p
  | none => [[("$match", Any.doc m)]]

/-- Whether the upper bound of a bound pair has the type the compiler asserts
once it has seen the lower bound: an integer after an integer, a timestamp after
a timestamp, anything after a lower bound of another type. -/
def boundsAgree : Any → Any → Bool
  | .int _, .int _ => true
  | .int _, _ => false
  | .time _, .time _ => true
  | .time _, _ => false
  | _, _ => true

/-- The filter trees the named builder functions make, with children and nested
nodes that are themselves built. `okPair` says which bound pairs the four range
builders are given. -/
inductive Built (okPair : Any → Any → Prop) : Filter → Prop where
  | and (items : List Filter) :
      (∀ c ∈ items, Built okPair c) → Built okPair (And (items.map some))
  | or (items : List Filter) :
      (∀ c ∈ items, Built okPair c) → Built okPair (Or (items.map some))
  | not (item : Filter) : Built okPair item → Built okPair (Not (some item))
  | sort (field sorttype : String) : Built okPair (SortNode field sorttype)
  | eq (field : String) (v : Any) : Built okPair (Eq field v)
  | ne (field : String) (v : Any) : Built okPair (Ne field v)
  | gte (field : String) (v : Any) : Built okPair (Gte field v)
  | gt (field : String) (v : Any) : Built okPair (Gt field v)
  | lt (field : String) (v : Any) : Built okPair (Lt field v)
  | lte (field : String) (v : Any) : Built okPair (Lte field v)
  | range (field : String) (lo hi : Any) : okPair lo hi → Built okPair (Range field lo hi)
  | between (field : String) (lo hi : Any) : okPair lo hi → Built okPair (Between field lo hi)
  | rangeEq (field : String) (lo hi : Any) : okPair lo hi → Built okPair (RangeEq field lo hi)
  | betweenEq (field : String) (lo hi : Any) :
      okPair lo hi → Built okPair (BetweenEq field lo hi)
  | isIn (field : String) (vs : List Any) : Built okPair (In field vs)
  | nin (field : String) (vs : List Any) : Built okPair (Nin field vs)
  | contains (field : String) (values : List String) :
      values ≠ [] → Built okPair (Contains field values)
  | startWith (field value : String) : Built okPair (StartWith field value)
  | endWith (field value : String) : Built okPair (EndWith field value)
  | existsNode (field : String) (value : Bool) : Built okPair (Exists field value)
  | elemMatch (field : String) (inner : Filter) :
      Built okPair inner → Built okPair (ElemMatch field (some inner))

/-- A run environment for closed examples. -/
def Env.sample : Env := ⟨fun _ => ⟨0⟩, fun _ => ""⟩

/-! ## pipeline.go: switch and group -/

/-- Modelled from the spec: the struct of one case of a switch is declared
outside the files at hand; `PipeSwitch` reads a `Case` (a `*Filter`) and a
`Then` from it (the spec pairs a filter-node condition with a result value). -/
structure PipeSwitchCase where
  Case : Option Filter
  Then : Any

/-- Modelled from the spec: the struct `PipeSwitchParams` is declared outside
the files at hand; `PipeSwitch` reads the list `Cases` and the value `Default`
from it (the spec writes `switchStage(cases, defaultValue)`). -/
structure PipeSwitchParams where
  Cases : List PipeSwitchCase
  Default : Any

/-- The loop of `PipeSwitch`, with `branches` as the accumulator. -/
def switchLoop (env : Env) (branches : List BsonM) :
    List PipeSwitchCase → Except Panic (List BsonM)
  | [] => pure branches
  | c :: rest => do
    let compiled ← BuildFilterPtr env c.Case
    switchLoop env (branches ++ [[("case", Any.doc compiled), ("then", c.Then)]]) rest

def PipeSwitch (env : Env) (switchCase : PipeSwitchParams) : Except Panic BsonM := do
  let branches ← switchLoop env [] switchCase.Cases
  pure [("$switch", .doc [("default", switchCase.Default), ("branches", .docs branches)])]

/-- The loop of `PipeGroup` over `fields`, in the order the `range` statement
visits the entries, with `m` as the accumulator. -/
def groupLoop (m : BsonM) : BsonM → BsonM
  | [] => m
  | (k, v) :: rest => groupLoop (M.set m k v) rest

def PipeGroup (id : String) (fields : BsonM) : BsonM :=
  let m := groupLoop [("_id", .str id)] fields
  [("$group", .doc m)]

/-! ## set.go: the normalizer -/

def getValidID (key : String) : String :=
  if key = "ID" ∨ key = "_id" ∨ key = "id" then "_id" else key

/-- A `json.RawMessage`: its text, what `encoding/json` decodes it to as an
object (`map[string]json.RawMessage`, the entries in the order a `range` visits
them) and as an array (`[]json.RawMessage`), `none` where the decoding fails.
The parts are raw messages themselves, sub-texts of the whole. -/
inductive RawMessage where
  | mk (text : String) (object : Option (List (String × RawMessage)))
      (array : Option (List RawMessage))

/-- What the normalizer takes from outside the repository. Each decoder gives
`none` where the Go call returns an error.
`ParseInt s` is `strconv.ParseInt(s, 10, 64)`, `ParseFloat s` is
`strconv.ParseFloat(s, 64)` (the bits of the result), the three `unmarshal`
fields are `json.Unmarshal` into a `time.Time`, a `primitive.ObjectID` and an
`interface{}`, `RandomString i` is the key `RandomString(32)` returns for the
element at index `i` of an array, and `rangeOrder m` lists the entries of a map
in the order a `range` statement visits them. -/
structure Lib where
  ParseInt : String → Option Int
  ParseFloat : String → Option Nat
  unmarshalTime : String → Option Time
  unmarshalObjectID : String → Option Any
  unmarshalAny : String → Option Any
  RandomString : Nat → String
  rangeOrder : BsonM → BsonM

/-- The bytes of a string, as `[]byte(s)` gives them. -/
def bytesOf (s : String) : List Nat :=
  (s.data.flatMap String.utf8EncodeChar).map UInt8.toNat

/-- The cascade of `validateJSONRaw` on the text `s`: the first decoding that
succeeds decides what is stored under `getValidID k`. `objMapToBsonM` and
`tempBsonM` are what the loops over the decoded object and the decoded array
build (`none` where that decoding fails); in the Go code the loops run inside
their branch, which a pure function cannot tell apart. -/
def storeRaw (lib : Lib) (k s : String) (objMapToBsonM tempBsonM : Option BsonM)
    (m : BsonM) : BsonM :=
  match lib.ParseInt s with
  | some i => M.set m (getValidID k) (.int64 i)
  | none =>
  match lib.ParseFloat s with
  | some f => M.set m (getValidID k) (.float64 f)
  | none =>
  match lib.unmarshalTime s with
  | some t => M.set m (getValidID k) (.time t)
  | none =>
  match (if s.utf8ByteSize = 26 then lib.unmarshalObjectID s else none) with
  | some oid => M.set m (getValidID k) oid
  | none =>
  match objMapToBsonM with
  | some objMapToBsonM => M.set m (getValidID k) (.doc objMapToBsonM)
  | none =>
  match tempBsonM with
  | some tempBsonM =>
    let validSlice := (lib.rangeOrder tempBsonM).foldl (fun acc kv => acc ++ [kv.2]) []
    M.set m (getValidID k) (.slice validSlice)
  | none =>
  match lib.unmarshalAny s with
  | some itf => M.set m (getValidID k) itf
  | none => M.set m (getValidID k) (.bytes (bytesOf s))

mutual
/-- The function `validateJSONRaw`; the map `m` it writes to is passed in and
returned. -/
def validateJSONRaw (lib : Lib) (k : String) : RawMessage → BsonM → BsonM
  | .mk s object array, m =>
    storeRaw lib k s
      (match object with
        | some objMap => some (validateFields lib objMap [])
        | none => none)
      (match array with
        | some slice => some (validateElems lib 0 slice [])
        | none => none)
      m
/-- The loop over the entries of a decoded object. -/
def validateFields (lib : Lib) : List (String × RawMessage) → BsonM → BsonM
  | [], m => m
  | (ko, vo) :: rest, m => validateFields lib rest (validateJSONRaw lib ko vo m)
/-- The loop over the elements of a decoded array; `i` counts them. -/
def validateElems (lib : Lib) (i : Nat) : List RawMessage → BsonM → BsonM
  | [], m => m
  | el :: rest, m =>
    validateElems lib (i + 1) rest (validateJSONRaw lib (lib.RandomString i) el m)
end

/-- The argument `data` of `buildData` as `reflect` shows it: not a pointer; a
pointer to a struct, given by the raw fields that `json.Marshal` followed by
`json.Unmarshal` into `map[string]json.RawMessage` yields (in `range` order); a
pointer to a map, given by its entries (each key as `key.String()` renders it,
in `MapKeys` order); a pointer to a slice; a pointer to anything else. -/
inductive Data where
  | notPtr
  | structPtr (mRaw : List (String × RawMessage))
  | mapPtr (entries : List (String × Any))
  | slicePtr (elems : List Any)
  | otherPtr

/-- The loop of the struct branch of `buildData`. -/
def structLoop (lib : Lib) (includeID : Bool) (dataM : BsonM) :
    List (String × RawMessage) → BsonM
  | [] => dataM
  | (k, v) :: rest =>
    if includeID then structLoop lib includeID (validateJSONRaw lib k v dataM) rest
    else if k ≠ "_id" then structLoop lib includeID (validateJSONRaw lib k v dataM) rest
    else structLoop lib includeID dataM rest

/-- The loop of the map branch of `buildData`. -/
def mapLoop (includeID : Bool) (dataM : BsonM) : List (String × Any) → BsonM
  | [] => dataM
  | (key, value) :: rest =>
    if includeID then mapLoop includeID (M.set dataM (getValidID key) value) rest
    else if key ≠ "_id" then mapLoop includeID (M.set dataM (getValidID key) value) rest
    else mapLoop includeID dataM rest

/-- The method `Set.buildData` (it does not read its receiver). The error is the
message of the Go error. -/
def buildData (lib : Lib) (data : Data) (includeID : Bool) : Except String Any := do
  let result ← (match data with
    | .notPtr => Except.error "data argument must be pointer"
    | .structPtr mRaw => pure (Any.doc (structLoop lib includeID [] mRaw))
    | .mapPtr entries => pure (Any.doc (mapLoop includeID [] entries))
    | .slicePtr elems => pure (Any.slice (elems.foldl (fun datas value => datas ++ [value]) []))
    | .otherPtr => Except.error "data argument must be a struct or map")
  if result.notNil then pure result else Except.error "data argument can't be empty"

/-- The value of a run of decimal digits, `none` when a character is no digit. -/
def digitsValue (acc : Nat) : List Char → Option Nat
  | [] => some acc
  | c :: rest =>
    if '0' ≤ c ∧ c ≤ '9' then digitsValue (acc * 10 + (c.toNat - 48)) rest else none

/-- Decimal integers in the signed 64-bit range: an optional sign, then one or
more digits. -/
def parseDecimal64 (s : String) : Option Int :=
  let (negative, digits) :=
    match s.data with
    | '-' :: ds => (true, ds)
    | '+' :: ds => (false, ds)
    | ds => (false, ds)
  if digits = [] then none
  else
    match digitsValue 0 digits with
    | none => none
    | some n =>
      let v : Int := if negative then -(n : Int) else (n : Int)
      if -(2 : Int) ^ 63 ≤ v ∧ v < (2 : Int) ^ 63 then some v else none

/-- A library for closed examples: integers are decimal, every other decoder
fails. -/
def Lib.sample : Lib :=
  ⟨parseDecimal64, fun _ => none, fun _ => none, fun _ => none, fun _ => none,
   fun i => toString i, fun m => m⟩

/-! ## The filter compiler -/

theorem buildItems_ok (env : Env) (children : List (Option Filter)) (compiled : List BsonM)
    (hch : List.Forall₂ (fun c m => BuildFilterPtr env c = .ok m) children compiled)
    (acc : List Any) :
    buildItems env acc children = .ok (acc ++ compiled.map Any.doc) := by
  induction hch generalizing acc with
  | nil => simp [buildItems, pure, Except.pure]
  | cons hhead _ ih =>
    simp only [buildItems, hhead, bind, Except.bind]
    rw [ih]
    simp

/-- C1: a node whose operator is `$and` or `$or` and whose children compile to
`compiled` (child by child, in order) compiles to the one-key map from the
operator to the sequence `compiled`, which has as many elements as the node has
children. -/
theorem buildFilter_and_or_children (env : Env) (field : String) (op : FilterOptions)
    (v : Any) (children : List (Option Filter)) (compiled : List BsonM)
    (hop : op = OpAnd ∨ op = OpOr)
    (hch : List.Forall₂ (fun c m => BuildFilterPtr env c = .ok m) children compiled) :
    BuildFilter env (.mk children field op v) = .ok [(op, .slice (compiled.map Any.doc))]
      ∧ (compiled.map Any.doc).length = children.length
      ∧ (op = "$and" ∨ op = "$or") := by
  refine ⟨?_, ?_, hop⟩
  · unfold BuildFilter
    simp only [if_pos hop, buildItems_ok env children compiled hch]
    rfl
  · rw [List.length_map]
    exact hch.length_eq.symm

theorem buildFilter_and_or_children_witness :
    BuildFilter Env.sample (And [some (Eq "a" (.int 1)), some (Lt "b" (.int 2))])
        = .ok [("$and", .slice [.doc [("a", .doc [("$eq", .int 1)])],
                                .doc [("b", .doc [("$lt", .int 2)])]])]
      ∧ [Any.doc [("a", .doc [("$eq", .int 1)])], Any.doc [("b", .doc [("$lt", .int 2)])]].length
          = 2
      ∧ (OpAnd = "$and" ∨ OpAnd = "$or") :=
  buildFilter_and_or_children Env.sample "" OpAnd .nil
    [some (Eq "a" (.int 1)), some (Lt "b" (.int 2))]
    [[("a", .doc [("$eq", .int 1)])], [("b", .doc [("$lt", .int 2)])]]
    (Or.inl rfl) (List.Forall₂.cons rfl (List.Forall₂.cons rfl List.Forall₂.nil))

/-- C2: with integer bounds, and with timestamp bounds, `Range` and `Between`
compile to the field mapped to `$gt` and `$lt` of the two bounds, `RangeEq` and
`BetweenEq` to `$gte` and `$lte` of them. -/
theorem buildFilter_range_bounds (env : Env) (f : String) (a b : Int) (t u : Time) :
    BuildFilter env (Range f (.int a) (.int b))
        = .ok [(f, .doc [("$gt", .int a), ("$lt", .int b)])]
      ∧ BuildFilter env (Between f (.int a) (.int b))
        = .ok [(f, .doc [("$gt", .int a), ("$lt", .int b)])]
      ∧ BuildFilter env (RangeEq f (.int a) (.int b))
        = .ok [(f, .doc [("$gte", .int a), ("$lte", .int b)])]
      ∧ BuildFilter env (BetweenEq f (.int a) (.int b))
        = .ok [(f, .doc [("$gte", .int a), ("$lte", .int b)])]
      ∧ BuildFilter env (Range f (.time t) (.time u))
        = .ok [(f, .doc [("$gt", .time t), ("$lt", .time u)])]
      ∧ BuildFilter env (Between f (.time t) (.time u))
        = .ok [(f, .doc [("$gt", .time t), ("$lt", .time u)])]
      ∧ BuildFilter env (RangeEq f (.time t) (.time u))
        = .ok [(f, .doc [("$gte", .time t), ("$lte", .time u)])]
      ∧ BuildFilter env (BetweenEq f (.time t) (.time u))
        = .ok [(f, .doc [("$gte", .time t), ("$lte", .time u)])] :=
  ⟨rfl, rfl, rfl, rfl, rfl, rfl, rfl, rfl⟩

theorem contains_loop (f : String) (ss : List String) (acc : List Any) :
    ss.foldl (fun bfs ff =>
        bfs ++ [Any.doc (M.set [] f (regexDoc (".*" ++ ff ++ ".*")))]) acc
      = acc ++ ss.map (fun s =>
          Any.doc [(f, .doc [("$regex", .str (".*" ++ s ++ ".*")), ("$options", .str "i")])]) := by
  induction ss generalizing acc with
  | nil => simp
  | cons s rest ih =>
    simp only [List.foldl_cons, List.map_cons]
    rw [ih]
    simp [M.set, regexDoc]

theorem buildContains_many (f : String) (ss : List String) (h : 2 ≤ ss.length) :
    buildContains f (.strs ss)
      = .ok [("$or", .slice (ss.map (fun s =>
          Any.doc [(f, .doc [("$regex", .str (".*" ++ s ++ ".*")),
                             ("$options", .str "i")])])))] := by
  have hlen : ss.length > 1 := h
  simp only [buildContains, asStrs, bind, Except.bind, hlen, if_true, pure, Except.pure]
  rw [contains_loop]
  simp [M.set]

/-- C3: `Contains` with one substring compiles to a case-insensitive regular
expression match of the field; with two or more substrings it compiles to `$or`
over one such match per substring, in the order given. -/
theorem buildFilter_contains (env : Env) (f : String) (ss : List String) :
    (∀ s1, ss = [s1] →
        BuildFilter env (Contains f ss)
          = .ok [(f, .doc [("$regex", .str (".*" ++ s1 ++ ".*")), ("$options", .str "i")])])
      ∧ (2 ≤ ss.length →
        BuildFilter env (Contains f ss)
          = .ok [("$or", .slice (ss.map (fun s =>
              Any.doc [(f, .doc [("$regex", .str (".*" ++ s ++ ".*")),
                                 ("$options", .str "i")])])))]
        ∧ (ss.map (fun s =>
              Any.doc [(f, .doc [("$regex", .str (".*" ++ s ++ ".*")),
                                 ("$options", .str "i")])])).length = ss.length) := by
  constructor
  · intro s1 h
    subst h
    rfl
  · intro h
    refine ⟨?_, by simp⟩
    have hb : BuildFilter env (Contains f ss) = buildContains f (.strs ss) := rfl
    rw [hb]
    exact buildContains_many f ss h

theorem buildFilter_contains_witness :
    BuildFilter Env.sample (Contains "name" ["abc"])
        = .ok [("name", .doc [("$regex", .str ".*abc.*"), ("$options", .str "i")])]
      ∧ BuildFilter Env.sample (Contains "name" ["abc", "xyz"])
        = .ok [("$or", .slice [
            .doc [("name", .doc [("$regex", .str ".*abc.*"), ("$options", .str "i")])],
            .doc [("name", .doc [("$regex", .str ".*xyz.*"), ("$options", .str "i")])]])] :=
  ⟨(buildFilter_contains Env.sample "name" ["abc"]).1 "abc" rfl,
   ((buildFilter_contains Env.sample "name" ["abc", "xyz"]).2 (by decide)).1⟩

/-- C4: `ElemMatch` of a field and an inner node compiles to the field mapped to
`$elemMatch` of the compiled inner node (and fails exactly when compiling the
inner node fails). -/
theorem buildFilter_elemMatch (env : Env) (f : String) (inner : Filter) :
    BuildFilter env (ElemMatch f (some inner))
      = (BuildFilter env inner).map (fun m => [(f, Any.doc [("$elemMatch", Any.doc m)])]) := by
  unfold ElemMatch
  rw [BuildFilter.eq_def]
  simp only [BuildFilterPtr]
  cases BuildFilter env inner <;> rfl

/-- C5: a node whose operator is one of `$eq`, `$ne`, `$gt`, `$gte`, `$lt`,
`$lte`, `$in`, `$nin`, `$exists`, `$sort` compiles to the field mapped to the
one-key map from the operator name to the value of the node, unchanged. -/
theorem buildFilter_comparison (env : Env) (items : List (Option Filter)) (f : String)
    (op : FilterOptions) (v : Any)
    (hop : op ∈ [OpEq, OpNe, OpGt, OpGte, OpLt, OpLte, OpIn, OpNin, OpExists, OpSort]) :
    BuildFilter env (.mk items f op v) = .ok [(f, .doc [(op, v)])]
      ∧ op ∈ ["$eq", "$ne", "$gt", "$gte", "$lt", "$lte", "$in", "$nin", "$exists", "$sort"] := by
  refine ⟨?_, hop⟩
  simp only [List.mem_cons, List.mem_singleton, List.not_mem_nil, or_false] at hop
  rcases hop with h | h | h | h | h | h | h | h | h | h <;> subst h <;> rfl

theorem buildFilter_comparison_witness :
    BuildFilter Env.sample (Gte "age" (.int 18)) = .ok [("age", .doc [("$gte", .int 18)])]
      ∧ OpGte ∈ ["$eq", "$ne", "$gt", "$gte", "$lt", "$lte", "$in", "$nin", "$exists", "$sort"] :=
  buildFilter_comparison Env.sample [] "age" OpGte (.int 18) (by decide)

/-- C6: `StartWith` compiles to the case-insensitive pattern `^` value `.*$` and
`EndWith` to `^.*` value `$`, the value being copied into the pattern as it
is. -/
theorem buildFilter_startWith_endWith (env : Env) (f v : String) :
    BuildFilter env (StartWith f v)
        = .ok [(f, .doc [("$regex", .str ("^" ++ v ++ ".*$")), ("$options", .str "i")])]
      ∧ BuildFilter env (EndWith f v)
        = .ok [(f, .doc [("$regex", .str ("^.*" ++ v ++ "$")), ("$options", .str "i")])] :=
  ⟨rfl, rfl⟩

theorem M.get_set (m : BsonM) (k x : String) (v : Any) :
    M.get (M.set m k v) x = if k = x then some v else M.get m x := by
  induction m with
  | nil => simp [M.set, M.get]
  | cons kv rest ih =>
    obtain ⟨k0, v0⟩ := kv
    by_cases h0 : k0 = k
    · subst h0
      by_cases hx : k0 = x <;> simp [M.set, M.get, hx]
    · by_cases hx : k0 = x
      · subst hx
        simp [M.set, M.get, h0, Ne.symm h0]
      · simp [M.set, M.get, h0, hx, ih]

theorem M.mem_keys_iff (m : BsonM) (x : String) : x ∈ M.keys m ↔ M.get m x ≠ none := by
  induction m with
  | nil => simp [M.keys, M.get]
  | cons kv rest ih =>
    obtain ⟨k0, v0⟩ := kv
    by_cases hx : k0 = x
    · simp [M.keys, M.get, hx]
    · have ih2 : x ∈ List.map Prod.fst rest ↔ M.get rest x ≠ none := ih
      simp [M.keys, M.get, hx, ih2, Ne.symm hx]

theorem M.keys_set (m : BsonM) (k : String) (v : Any) :
    M.keys (M.set m k v) = if k ∈ M.keys m then M.keys m else M.keys m ++ [k] := by
  induction m with
  | nil => simp [M.set, M.keys]
  | cons kv rest ih =>
    obtain ⟨k0, v0⟩ := kv
    have ih2 : List.map Prod.fst (M.set rest k v)
        = if k ∈ List.map Prod.fst rest then List.map Prod.fst rest
          else List.map Prod.fst rest ++ [k] := ih
    by_cases h0 : k0 = k
    · subst h0
      simp [M.set, M.keys]
    · have h1 : ¬ k = k0 := fun h => h0 h.symm
      simp only [M.set, M.keys, h0, if_false, List.map_cons, List.mem_cons, h1, false_or, ih2]
      split <;> simp

theorem M.nodup_keys_set (m : BsonM) (k : String) (v : Any) (h : (M.keys m).Nodup) :
    (M.keys (M.set m k v)).Nodup := by
  rw [M.keys_set]
  split
  · exact h
  · rename_i hk
    exact List.Nodup.append h (List.nodup_singleton k) (by simpa using hk)

theorem sortLoop_nodup (ps : List PipeSortParams) (acc : BsonM) (h : (M.keys acc).Nodup) :
    (M.keys (sortLoop acc ps)).Nodup := by
  induction ps generalizing acc with
  | nil => exact h
  | cons p rest ih => exact ih _ (M.nodup_keys_set acc _ _ h)

theorem sortLoop_get (ps : List PipeSortParams) (acc : BsonM) (x : String) :
    M.get (sortLoop acc ps) x
      = match (ps.filter (fun q => q.Field = x)).getLast? with
        | some p => some (.int (if p.Ascending then 1 else -1))
        | none => M.get acc x := by
  induction ps generalizing acc with
  | nil => simp [sortLoop]
  | cons p rest ih =>
    simp only [sortLoop]
    rw [ih]
    by_cases hp : p.Field = x
    · simp only [List.filter_cons, hp, decide_True, if_true]
      cases hr : List.filter (fun q => decide (q.Field = x)) rest with
      | nil =>
        simp [M.get_set, hp]
        cases p.Ascending <;> simp
      | cons q qs =>
        rw [List.getLast?_cons_cons, List.getLast?_cons]
    · simp [List.filter_cons, hp, M.get_set]

/-- C7: `PipeSortMultiple` returns the one-key map from `$sort` to a map whose
keys are the field names of the parameters and which sends a field name to 1
when the last parameter with that field is ascending and to -1 when it is
not. -/
theorem pipeSortMultiple_last_wins (ps : List PipeSortParams) :
    ∃ m : BsonM, PipeSortMultiple ps = [("$sort", .doc m)]
      ∧ (M.keys m).Nodup
      ∧ (∀ x, x ∈ M.keys m ↔ ∃ p ∈ ps, p.Field = x)
      ∧ (∀ x p, (ps.filter (fun q => q.Field = x)).getLast? = some p →
          M.get m x = some (.int (if p.Ascending then 1 else -1))) := by
  refine ⟨sortLoop [] ps, rfl, sortLoop_nodup ps [] (by simp [M.keys]), ?_, ?_⟩
  · intro x
    rw [M.mem_keys_iff, sortLoop_get]
    cases hl : (ps.filter (fun q => q.Field = x)).getLast? with
    | none =>
      have hnil : ps.filter (fun q => q.Field = x) = [] := List.getLast?_eq_none_iff.mp hl
      simp only [M.get, ne_eq, not_true_eq_false, false_iff, not_exists, not_and]
      intro p hp hpx
      have : p ∈ ps.filter (fun q => q.Field = x) := by simp [List.mem_filter, hp, hpx]
      rw [hnil] at this
      exact absurd this (List.not_mem_nil p)
    | some p =>
      have hmem : p ∈ ps.filter (fun q => q.Field = x) := List.mem_of_getLast?_eq_some hl
      simp only [List.mem_filter, decide_eq_true_eq] at hmem
      simp only [ne_eq, reduceCtorEq, not_false_eq_true, true_iff]
      exact ⟨p, hmem.1, hmem.2⟩
  · intro x p hl
    rw [sortLoop_get, hl]

/-! ## The session builder -/

theorem runCalls_append (env : Env) (s : Set) (xs ys : List Call) :
    runCalls env s (xs ++ ys) = (runCalls env s xs).bind (fun s1 => runCalls env s1 ys) := by
  induction xs generalizing s with
  | nil => rfl
  | cons c rest ih =>
    simp only [List.cons_append, runCalls, bind]
    cases c.run env s with
    | error e => rfl
    | ok s1 => exact ih s1

theorem Call.run_swap (env : Env) (s : Set) (c d : Call) (h : c.kind ≠ d.kind) :
    (c.run env s).bind (fun s1 => d.run env s1) = (d.run env s).bind (fun s1 => c.run env s1) := by
  cases c <;> cases d <;> first
    | exact absurd rfl h
    | rfl
    | (rename_i f; cases f with
        | none => rfl
        | some f =>
          simp only [Call.run, Set.Filter, bind, pure, Except.bind, Except.pure]
          cases BuildFilter env f <;> rfl)
    | (rename_i f _; cases f with
        | none => rfl
        | some f =>
          simp only [Call.run, Set.Filter, bind, pure, Except.bind, Except.pure]
          cases BuildFilter env f <;> rfl)
    | (rename_i f _ _; cases f with
        | none => rfl
        | some f =>
          simp only [Call.run, Set.Filter, bind, pure, Except.bind, Except.pure]
          cases BuildFilter env f <;> rfl)

theorem runCalls_move (env : Env) (d : Call) (front back : List Call)
    (h : ∀ a ∈ front, a.kind ≠ d.kind) (s : Set) :
    runCalls env s (d :: (front ++ back)) = runCalls env s (front ++ d :: back) := by
  induction front generalizing s with
  | nil => rfl
  | cons a rest ih =>
    have ha : d.kind ≠ a.kind := fun e => h a (List.mem_cons_self a rest) e.symm
    have hswap := Call.run_swap env s d a ha
    have hrest : ∀ s1, runCalls env s1 (d :: (rest ++ back)) = runCalls env s1 (rest ++ d :: back) :=
      fun s1 => ih (fun b hb => h b (List.mem_cons_of_mem a hb)) s1
    calc runCalls env s (d :: (a :: rest ++ back))
        = ((d.run env s).bind (fun s1 => a.run env s1)).bind
            (fun s2 => runCalls env s2 (rest ++ back)) := by
          simp only [List.cons_append, runCalls, bind]
          cases d.run env s <;> rfl
      _ = ((a.run env s).bind (fun s1 => d.run env s1)).bind
            (fun s2 => runCalls env s2 (rest ++ back)) := by rw [hswap]
      _ = (a.run env s).bind (fun s1 => runCalls env s1 (d :: (rest ++ back))) := by
          simp only [runCalls, bind]
          cases a.run env s <;> rfl
      _ = (a.run env s).bind (fun s1 => runCalls env s1 (rest ++ d :: back)) := by
          simp only [hrest]
      _ = runCalls env s (a :: rest ++ d :: back) := rfl

theorem runCalls_partition (env : Env) (k : Nat) (calls : List Call) (s : Set) :
    runCalls env s calls
      = runCalls env s (callsOf k calls ++ calls.filter (fun c => c.kind ≠ k)) := by
  induction calls generalizing s with
  | nil => rfl
  | cons d rest ih =>
    have hstep : runCalls env s (d :: rest)
        = runCalls env s (d :: (callsOf k rest ++ rest.filter (fun c => c.kind ≠ k))) := by
      simp only [runCalls, bind]
      cases d.run env s with
      | error e => rfl
      | ok s1 => exact ih s1
    rw [hstep]
    by_cases hk : d.kind = k
    · simp [callsOf, List.filter_cons, hk]
    · have hfront : ∀ a ∈ callsOf k rest, a.kind ≠ d.kind := by
        intro a ha
        have hak : a.kind = k := by simpa [callsOf, List.mem_filter] using (List.mem_filter.mp ha).2
        rw [hak]
        exact fun e => hk e.symm
      rw [runCalls_move env d _ _ hfront s]
      simp [callsOf, List.filter_cons, hk]

theorem callsOf_filter (j k : Nat) (calls : List Call) :
    callsOf j (calls.filter (fun c => c.kind ≠ k))
      = (callsOf j calls).filter (fun c => c.kind ≠ k) := by
  simp only [callsOf, List.filter_filter]
  congr 1
  funext a
  exact Bool.and_comm _ _

theorem runCalls_kinds (env : Env) (ks : List Nat) :
    ∀ (calls₁ calls₂ : List Call) (s : Set),
      (∀ k ∈ ks, callsOf k calls₁ = callsOf k calls₂) →
      (∀ c ∈ calls₁, c.kind ∈ ks) → (∀ c ∈ calls₂, c.kind ∈ ks) →
      runCalls env s calls₁ = runCalls env s calls₂ := by
  induction ks with
  | nil =>
    intro calls₁ calls₂ s _ h1 h2
    have e1 : calls₁ = [] := List.eq_nil_iff_forall_not_mem.mpr (fun c hc => by simpa using h1 c hc)
    have e2 : calls₂ = [] := List.eq_nil_iff_forall_not_mem.mpr (fun c hc => by simpa using h2 c hc)
    rw [e1, e2]
  | cons k ks ih =>
    intro calls₁ calls₂ s hsame h1 h2
    rw [runCalls_partition env k calls₁ s, runCalls_partition env k calls₂ s,
      runCalls_append, runCalls_append, hsame k (List.mem_cons_self k ks)]
    have hrest : ∀ s1, runCalls env s1 (calls₁.filter (fun c => c.kind ≠ k))
        = runCalls env s1 (calls₂.filter (fun c => c.kind ≠ k)) := by
      intro s1
      apply ih
      · intro j hj
        have hj2 := hsame j (List.mem_cons_of_mem k hj)
        rw [callsOf_filter, callsOf_filter, hj2]
      · intro c hc
        have hc2 := List.mem_filter.mp hc
        have := h1 c hc2.1
        simp only [List.mem_cons] at this
        rcases this with e | e
        · exact absurd e (by simpa using hc2.2)
        · exact e
      · intro c hc
        have hc2 := List.mem_filter.mp hc
        have := h2 c hc2.1
        simp only [List.mem_cons] at this
        rcases this with e | e
        · exact absurd e (by simpa using hc2.2)
        · exact e
    simp only [hrest]

theorem Call.kind_mem (c : Call) : c.kind ∈ [0, 1, 2, 3] := by
  cases c <;> simp [Call.kind]

theorem Except.bind_eq_ok {ε α β : Type} (x : Except ε α) (f : α → Except ε β) (b : β)
    (h : x.bind f = .ok b) : ∃ a, x = .ok a ∧ f a = .ok b := by
  cases x with
  | error e => cases h
  | ok a => exact ⟨a, rfl, h⟩

theorem filterCall_doc (env : Env) (s s1 : Set) (f : Option Filter)
    (h : Set.Filter env s f = .ok s1) : ∃ m, s1.filter = Any.doc m := by
  cases f with
  | none => cases h; exact ⟨[], rfl⟩
  | some f =>
    obtain ⟨m, _, hm⟩ := Except.bind_eq_ok (BuildFilter env f) _ s1 h
    cases hm
    exact ⟨m, rfl⟩

theorem filter_Timeout (s : Set) (n : Int) : (s.Timeout n).filter = s.filter := rfl

theorem filter_Sort (s : Set) (f b : String) : (s.Sort f b).filter = s.filter := rfl

theorem filter_Table (s : Set) (t : String) : (s.Table t).filter = s.filter := rfl

theorem filter_Result (s : Set) (r : Any) : (s.Result r).filter = s.filter := rfl

theorem filter_Limit (s : Set) (n : Int) : (s.Limit n).filter = s.filter := rfl

theorem filter_Skip (s : Set) (n : Int) : (s.Skip n).filter = s.filter := rfl

theorem filter_Pipe (s : Set) (p : Option (List BsonM)) : (s.Pipe p).filter = s.filter := rfl

theorem newSet_filter_doc (env : Env) (params : Option SetParams) (s : Set)
    (h : newSet env params = .ok s) : ∃ m, s.filter = Any.doc m := by
  cases params with
  | none => cases h; exact ⟨[], rfl⟩
  | some p =>
    dsimp only [newSet] at h
    obtain ⟨s1, hs1, hrest⟩ := Except.bind_eq_ok _ _ s h
    have h1 : ∃ m, s1.filter = Any.doc m := by
      by_cases hf : p.Filter.isSome = true
      · rw [if_pos hf] at hs1
        exact filterCall_doc env _ s1 p.Filter hs1
      · rw [if_neg hf] at hs1
        cases hs1
        exact ⟨[], rfl⟩
    cases hrest
    obtain ⟨m, hm⟩ := h1
    refine ⟨m, ?_⟩
    rw [← hm]
    simp only [apply_ite Set.filter, filter_Timeout, filter_Sort, filter_Table, filter_Result,
      filter_Limit, filter_Skip, filter_Pipe, ite_self]

theorem reachable_filter_doc (env : Env) (s : Set) (h : Reachable env s) :
    ∃ m, s.filter = Any.doc m := by
  induction h with
  | new params s h => exact newSet_filter_doc env params s h
  | reset s _ _ => exact ⟨[], rfl⟩
  | table s t _ ih => exact ih
  | result s r _ ih => exact ih
  | skip s n _ ih => exact ih
  | limit s n _ ih => exact ih
  | sort s f b _ ih => exact ih
  | filter s s1 f _ hf _ => exact filterCall_doc env s s1 f hf
  | pipe s p _ ih => exact ih
  | timeout s n _ ih => exact ih

theorem buildPipe_parts (s : Set) (m : BsonM) (h : s.filter = Any.doc m) :
    s.buildPipe = .ok (headPart s m ++ skipPart s ++ limitPart s ++ sortPart s) := by
  obtain ⟨tn, res, fl, pipe, sf, sb, sk, lm, ct⟩ := s
  simp only at h
  subst h
  cases pipe <;> cases sk <;> cases lm <;> cases sf <;>
    simp [Set.buildPipe, headPart, skipPart, limitPart, sortPart, Any.notNil, asDoc, pure,
      Except.pure, bind, Except.bind]

/-- C8: `buildPipe` returns the head (the explicit pipeline, or else the
`$match` stage of the compiled filter), then the `$skip` stage, then the
`$limit` stage, then the `$sort` stage, each of the last three only when set;
every state made by `newSet` and the methods of `Set` holds a compiled filter; and two
sequences of `Skip`, `Limit`, `Sort`, `Filter` calls that agree setter by setter
give the same pipeline, whatever the order between different setters. -/
theorem buildPipe_fixed_order :
    (∀ (s : Set) (m : BsonM), s.filter = Any.doc m →
        s.buildPipe = .ok (headPart s m ++ skipPart s ++ limitPart s ++ sortPart s))
      ∧ (∀ (env : Env) (s : Set), Reachable env s → ∃ m, s.filter = Any.doc m)
      ∧ (∀ (env : Env) (s : Set) (calls₁ calls₂ : List Call),
          (∀ k, callsOf k calls₁ = callsOf k calls₂) →
            (runCalls env s calls₁).bind Set.buildPipe
              = (runCalls env s calls₂).bind Set.buildPipe) := by
  refine ⟨buildPipe_parts, reachable_filter_doc, ?_⟩
  · intro env s calls₁ calls₂ h
    rw [runCalls_kinds env [0, 1, 2, 3] calls₁ calls₂ s (fun k _ => h k)
      (fun c _ => c.kind_mem) (fun c _ => c.kind_mem)]

theorem buildPipe_fixed_order_witness :
    (Set.zero.reset.Sort "name" "ASC").buildPipe
        = .ok [[("$match", .doc [])], [("$sort", .doc [("name", .intPtr (some 1))])]]
      ∧ (runCalls Env.sample Set.zero.reset
            [.limit 10, .sort "name" "desc", .skip 5, .filter (some (Eq "a" (.int 1)))]).bind
          Set.buildPipe
        = (runCalls Env.sample Set.zero.reset
            [.filter (some (Eq "a" (.int 1))), .skip 5, .limit 10, .sort "name" "desc"]).bind
          Set.buildPipe :=
  ⟨buildPipe_fixed_order.1 (Set.zero.reset.Sort "name" "ASC") [] rfl,
   buildPipe_fixed_order.2.2 Env.sample Set.zero.reset _ _
    (fun k => by rcases k with _ | _ | _ | _ | k <;> rfl)⟩

/-- C9: once `Pipe` has set a non-nil stage list, the filter held by the builder
plays no part: whatever the filter is, `buildPipe` returns the explicit stages
followed by the skip, limit and sort stages, none of which is a `$match`
stage. -/
theorem buildPipe_pipe_overrides_filter (s : Set) (p : List BsonM) (v₁ v₂ : Any) :
    Set.buildPipe { s.Pipe (some p) with filter := v₁ }
        = Set.buildPipe { s.Pipe (some p) with filter := v₂ }
      ∧ Set.buildPipe { s.Pipe (some p) with filter := v₁ }
        = .ok (p ++ (skipPart s ++ limitPart s ++ sortPart s))
      ∧ ∀ stage ∈ skipPart s ++ limitPart s ++ sortPart s, M.get stage "$match" = none := by
  obtain ⟨tn, res, fl, pipe, sf, sb, sk, lm, ct⟩ := s
  refine ⟨?_, ?_, ?_⟩
  · cases sk <;> cases lm <;> cases sf <;> rfl
  · cases sk <;> cases lm <;> cases sf <;> simp [Set.buildPipe, Set.Pipe, skipPart, limitPart, sortPart, pure, Except.pure, bind, Except.bind]
  · intro stage hst
    simp only [List.mem_append] at hst
    rcases hst with (h | h) | h
    · unfold skipPart at h
      split at h <;> simp at h
      subst h; rfl
    · unfold limitPart at h
      split at h <;> simp at h
      subst h; rfl
    · unfold sortPart at h
      split at h <;> simp at h
      subst h; rfl

theorem buildItems_total (env : Env) (items : List Filter)
    (h : ∀ c ∈ items, ∃ m, BuildFilter env c = .ok m) (acc : List Any) :
    ∃ r, buildItems env acc (items.map some) = .ok r := by
  induction items generalizing acc with
  | nil => exact ⟨acc, rfl⟩
  | cons c rest ih =>
    obtain ⟨m, hm⟩ := h c (List.mem_cons_self c rest)
    obtain ⟨r, hr⟩ := ih (fun d hd => h d (List.mem_cons_of_mem c hd)) (acc ++ [Any.doc m])
    refine ⟨r, ?_⟩
    simp only [List.map_cons, buildItems, BuildFilterPtr, hm, bind, Except.bind]
    exact hr

theorem buildBounds_total (env : Env) (field : String) (lo hi : Any) (lower upper : String)
    (h : boundsAgree lo hi = true) :
    ∃ m, buildBounds env field (.slice [lo, hi]) lower upper = .ok m := by
  cases lo <;> cases hi <;> first
    | exact ⟨_, rfl⟩
    | exact absurd h (by simp [boundsAgree])

/-- C10 (amended): on every tree made by the builder functions, with built
children and nested nodes, at least one substring for `Contains`, and bound pairs
whose upper bound is an integer when the lower one is and a timestamp when the
lower one is, `BuildFilter` returns a compiled map. -/
theorem buildFilter_total_on_built (env : Env) (f : Filter)
    (h : Built (fun lo hi => boundsAgree lo hi = true) f) :
    ∃ m, BuildFilter env f = .ok m := by
  induction h with
  | and items _ ih =>
    obtain ⟨r, hr⟩ := buildItems_total env items ih []
    refine ⟨[(OpAnd, .slice r)], ?_⟩
    unfold And newFilter BuildFilter
    simp only [true_or, if_true, hr]
    rfl
  | or items _ ih =>
    obtain ⟨r, hr⟩ := buildItems_total env items ih []
    refine ⟨[(OpOr, .slice r)], ?_⟩
    unfold Or newFilter BuildFilter
    simp only [or_true, if_true, hr]
    rfl
  | not item _ _ => exact ⟨_, rfl⟩
  | sort field sorttype => exact ⟨_, rfl⟩
  | eq field v => exact ⟨_, rfl⟩
  | ne field v => exact ⟨_, rfl⟩
  | gte field v => exact ⟨_, rfl⟩
  | gt field v => exact ⟨_, rfl⟩
  | lt field v => exact ⟨_, rfl⟩
  | lte field v => exact ⟨_, rfl⟩
  | range field lo hi hp => exact buildBounds_total env field lo hi "$gt" "$lt" hp
  | between field lo hi hp => exact buildBounds_total env field lo hi "$gt" "$lt" hp
  | rangeEq field lo hi hp => exact buildBounds_total env field lo hi "$gte" "$lte" hp
  | betweenEq field lo hi hp => exact buildBounds_total env field lo hi "$gte" "$lte" hp
  | isIn field vs => exact ⟨_, rfl⟩
  | nin field vs => exact ⟨_, rfl⟩
  | contains field values hne =>
    cases values with
    | nil => exact absurd rfl hne
    | cons s rest =>
      cases rest with
      | nil => exact ⟨_, rfl⟩
      | cons s2 rest2 =>
        have hb : BuildFilter env (Contains field (s :: s2 :: rest2))
            = buildContains field (.strs (s :: s2 :: rest2)) := rfl
        exact ⟨_, hb.trans (buildContains_many field (s :: s2 :: rest2) (by simp))⟩
  | startWith field value => exact ⟨_, rfl⟩
  | endWith field value => exact ⟨_, rfl⟩
  | existsNode field value => exact ⟨_, rfl⟩
  | elemMatch field inner _ ih =>
    obtain ⟨m, hm⟩ := ih
    refine ⟨[(field, Any.doc [("$elemMatch", Any.doc m)])], ?_⟩
    unfold ElemMatch
    rw [BuildFilter.eq_def]
    simp only [BuildFilterPtr, hm]
    rfl

theorem buildFilter_total_on_built_witness :
    ∃ m, BuildFilter Env.sample
      (And [some (Range "age" (.int 18) (.int 65)), some (Contains "name" ["ab", "cd"]),
            some (ElemMatch "tags" (some (Not (some (Eq "k" (.str "v"))))))]) = .ok m :=
  buildFilter_total_on_built Env.sample _
    (Built.and [Range "age" (.int 18) (.int 65), Contains "name" ["ab", "cd"],
                ElemMatch "tags" (some (Not (some (Eq "k" (.str "v")))))]
      (fun c hc => by
        simp only [List.mem_cons, List.mem_singleton, List.not_mem_nil, or_false] at hc
        rcases hc with h | h | h
        · rw [h]; exact Built.range _ _ _ rfl
        · rw [h]; exact Built.contains _ _ (by simp)
        · rw [h]; exact Built.elemMatch _ _ (Built.not _ (Built.eq _ _))))

/-- C10 (as stated, refuted): `Range` takes any two bounds, and with an integer
lower bound and a string upper bound `BuildFilter` ends in a failed type
assertion. -/
theorem buildFilter_mixed_bounds_fail :
    Built (fun _ _ => True) (Range "age" (.int 1) (.str "x"))
      ∧ BuildFilter Env.sample (Range "age" (.int 1) (.str "x")) = .error .typeAssertion :=
  ⟨Built.range _ _ _ trivial, rfl⟩

/-! ## Bounds of another type, and the inert operator -/

theorem buildBounds_other (env : Env) (field : String) (lo hi : Any) (lower upper : String)
    (hint : ∀ n, lo ≠ Any.int n) (htime : ∀ t, lo ≠ Any.time t) :
    buildBounds env field (.slice [lo, hi]) lower upper = .ok [] := by
  cases lo <;> first
    | rfl
    | exact absurd rfl (hint _)
    | exact absurd rfl (htime _)

/-- C11: a node with operator `$range`, `between`, `rangeEq` or `betweenEq`
whose value is a pair of bounds the first of which is neither an integer nor a
timestamp compiles to the empty map, whatever the second bound is; so do the
four builders on such a pair. -/
theorem buildFilter_other_lower_bound (env : Env) (items : List (Option Filter)) (f : String)
    (op : FilterOptions) (lo hi : Any)
    (hop : op ∈ [OpRange, OpBetween, OpRangeEq, OpBetweenEq])
    (hint : ∀ n, lo ≠ Any.int n) (htime : ∀ t, lo ≠ Any.time t) :
    BuildFilter env (.mk items f op (.slice [lo, hi])) = .ok []
      ∧ BuildFilter env (Range f lo hi) = .ok []
      ∧ BuildFilter env (Between f lo hi) = .ok []
      ∧ BuildFilter env (RangeEq f lo hi) = .ok []
      ∧ BuildFilter env (BetweenEq f lo hi) = .ok [] := by
  have hgt := buildBounds_other env f lo hi "$gt" "$lt" hint htime
  have hgte := buildBounds_other env f lo hi "$gte" "$lte" hint htime
  refine ⟨?_, hgt, hgt, hgte, hgte⟩
  simp only [List.mem_cons, List.mem_singleton, List.not_mem_nil, or_false] at hop
  rcases hop with h | h | h | h <;> subst h
  · exact hgt
  · exact hgt
  · exact hgte
  · exact hgte

theorem buildFilter_other_lower_bound_witness :
    BuildFilter Env.sample (.mk [] "price" OpRange (.slice [.float64 0, .int 5])) = .ok []
      ∧ BuildFilter Env.sample (Range "price" (.float64 0) (.int 5)) = .ok []
      ∧ BuildFilter Env.sample (Between "price" (.float64 0) (.int 5)) = .ok []
      ∧ BuildFilter Env.sample (RangeEq "price" (.float64 0) (.int 5)) = .ok []
      ∧ BuildFilter Env.sample (BetweenEq "price" (.float64 0) (.int 5)) = .ok [] :=
  buildFilter_other_lower_bound Env.sample [] "price" OpRange (.float64 0) (.int 5)
    (by decide) (fun _ h => Any.noConfusion h) (fun _ h => Any.noConfusion h)

/-- C19: `Not` of any node, nil included, compiles to the empty map, and so
does every node whose operator is `$not`: the inner node is not compiled, so a
node that fails to compile on its own does not make `Not` of it fail. -/
theorem buildFilter_not_inert (env : Env) (x : Option Filter) (items : List (Option Filter))
    (f : String) (v : Any) :
    BuildFilter env (Not x) = .ok []
      ∧ BuildFilter env (.mk items f OpNot v) = .ok []
      ∧ BuildFilterPtr env none = .error .nilDeref
      ∧ BuildFilter env (Not none) = .ok [] :=
  ⟨rfl, rfl, rfl, rfl⟩

/-! ## The normalizer -/

/-- C12: with `includeID` false, a map with the key `id` and a struct with the
raw field `ID` are normalized to documents that hold the field `_id`: only the
spelling `_id` is dropped. -/
theorem buildData_keeps_id_spellings :
    buildData Lib.sample (.mapPtr [("id", .int 7)]) false = .ok (.doc [("_id", .int 7)])
      ∧ buildData Lib.sample (.mapPtr [("ID", .int 7)]) false = .ok (.doc [("_id", .int 7)])
      ∧ buildData Lib.sample (.structPtr [("ID", .mk "7" none none)]) false
          = .ok (.doc [("_id", .int64 7)])
      ∧ buildData Lib.sample (.mapPtr [("_id", .int 7), ("n", .int 1)]) false
          = .ok (.doc [("n", .int 1)]) :=
  ⟨rfl, rfl, rfl, rfl⟩

/-- C13: an empty map, an empty struct, and a map whose only field is `_id`
normalized with `includeID` false, all give the empty document and no error. -/
theorem buildData_empty_is_returned :
    buildData Lib.sample (.mapPtr []) true = .ok (.doc [])
      ∧ buildData Lib.sample (.mapPtr []) false = .ok (.doc [])
      ∧ buildData Lib.sample (.structPtr []) false = .ok (.doc [])
      ∧ buildData Lib.sample (.mapPtr [("_id", .int 7)]) false = .ok (.doc []) :=
  ⟨rfl, rfl, rfl, rfl⟩

theorem getValidID_idem (k : String) : getValidID (getValidID k) = getValidID k := by
  unfold getValidID
  split
  · rfl
  · rfl

theorem validateJSONRaw_mk (lib : Lib) (k s : String)
    (object : Option (List (String × RawMessage))) (array : Option (List RawMessage))
    (m : BsonM) :
    validateJSONRaw lib k (.mk s object array) m
      = storeRaw lib k s (object.map (fun objMap => validateFields lib objMap []))
          (array.map (fun slice => validateElems lib 0 slice [])) m := by
  cases object <;> cases array <;> rfl

theorem storeRaw_sets (lib : Lib) (k s : String) (o t : Option BsonM) (m : BsonM) :
    ∃ x, storeRaw lib k s o t m = M.set m (getValidID k) x := by
  unfold storeRaw
  split
  · exact ⟨_, rfl⟩
  · split
    · exact ⟨_, rfl⟩
    · split
      · exact ⟨_, rfl⟩
      · split
        · exact ⟨_, rfl⟩
        · split
          · exact ⟨_, rfl⟩
          · split
            · exact ⟨_, rfl⟩
            · split
              · exact ⟨_, rfl⟩
              · exact ⟨_, rfl⟩

theorem validateJSONRaw_sets (lib : Lib) (k : String) (v : RawMessage) (m : BsonM) :
    ∃ x, validateJSONRaw lib k v m = M.set m (getValidID k) x := by
  obtain ⟨s, object, array⟩ := v
  rw [validateJSONRaw_mk]
  exact storeRaw_sets lib k s _ _ m

theorem mapLoop_keys (includeID : Bool) (entries : List (String × Any)) (dataM : BsonM)
    (x : String) (hx : x ∈ M.keys (mapLoop includeID dataM entries)) :
    x ∈ M.keys dataM ∨ ∃ kv ∈ entries, x = getValidID kv.1 := by
  induction entries generalizing dataM with
  | nil => exact Or.inl hx
  | cons kv rest ih =>
    obtain ⟨key, value⟩ := kv
    have hset : ∀ y, y ∈ M.keys (M.set dataM (getValidID key) value) →
        y ∈ M.keys dataM ∨ y = getValidID key := by
      intro y hy
      rw [M.keys_set] at hy
      split at hy
      · exact Or.inl hy
      · simpa using hy
    have hstep : x ∈ M.keys (mapLoop includeID (M.set dataM (getValidID key) value) rest) →
        x ∈ M.keys dataM ∨ ∃ kv ∈ (key, value) :: rest, x = getValidID kv.1 := by
      intro h
      rcases ih _ h with h1 | ⟨kv, hkv, e⟩
      · rcases hset x h1 with h2 | h2
        · exact Or.inl h2
        · exact Or.inr ⟨(key, value), List.mem_cons_self _ _, h2⟩
      · exact Or.inr ⟨kv, List.mem_cons_of_mem _ hkv, e⟩
    unfold mapLoop at hx
    split at hx
    · exact hstep hx
    · split at hx
      · exact hstep hx
      · rcases ih _ hx with h1 | ⟨kv, hkv, e⟩
        · exact Or.inl h1
        · exact Or.inr ⟨kv, List.mem_cons_of_mem _ hkv, e⟩

/-- C14: `getValidID` gives `_id` on the keys `ID`, `_id` and `id` and on no
other key, gives every other key back, and is idempotent; `validateJSONRaw`
with key `k` writes to the map at `getValidID k`; the map branch of `buildData`
returns a document every key of which is `getValidID` of a key of the input. -/
theorem getValidID_is_destination :
    (∀ k, getValidID k = "_id" ↔ (k = "ID" ∨ k = "_id" ∨ k = "id"))
      ∧ (∀ k, ¬ (k = "ID" ∨ k = "_id" ∨ k = "id") → getValidID k = k)
      ∧ (∀ k, getValidID (getValidID k) = getValidID k)
      ∧ (∀ (lib : Lib) (k : String) (v : RawMessage) (m : BsonM),
          ∃ x, validateJSONRaw lib k v m = M.set m (getValidID k) x)
      ∧ (∀ (lib : Lib) (includeID : Bool) (entries : List (String × Any)),
          ∃ d, buildData lib (.mapPtr entries) includeID = .ok (.doc d)
            ∧ ∀ x ∈ M.keys d, ∃ kv ∈ entries, x = getValidID kv.1) := by
  refine ⟨?_, ?_, getValidID_idem, validateJSONRaw_sets, ?_⟩
  · intro k
    unfold getValidID
    constructor
    · intro h
      split at h
      · assumption
      · rename_i hn
        exact absurd (Or.inr (Or.inl h)) hn
    · intro h
      rw [if_pos h]
  · intro k h
    unfold getValidID
    rw [if_neg h]
  · intro lib includeID entries
    refine ⟨mapLoop includeID [] entries, rfl, ?_⟩
    intro x hx
    rcases mapLoop_keys includeID entries [] x hx with h | h
    · simp [M.keys] at h
    · exact h

/-- C20: when the text of a raw message parses as a signed 64-bit decimal
integer `n`, `validateJSONRaw` with key `k` stores the integer `n` at
`getValidID k` and leaves every other key of the map as it was, whatever the
other decoders would make of the text. -/
theorem validateJSONRaw_integer_first (lib : Lib) (k s : String)
    (object : Option (List (String × RawMessage))) (array : Option (List RawMessage))
    (m : BsonM) (n : Int) (h : lib.ParseInt s = some n) :
    validateJSONRaw lib k (.mk s object array) m = M.set m (getValidID k) (.int64 n)
      ∧ M.get (validateJSONRaw lib k (.mk s object array) m) (getValidID k) = some (.int64 n)
      ∧ ∀ x, x ≠ getValidID k →
          M.get (validateJSONRaw lib k (.mk s object array) m) x = M.get m x := by
  have e : validateJSONRaw lib k (.mk s object array) m = M.set m (getValidID k) (.int64 n) := by
    rw [validateJSONRaw_mk]
    unfold storeRaw
    rw [h]
  refine ⟨e, ?_, ?_⟩
  · rw [e, M.get_set, if_pos rfl]
  · intro x hx
    rw [e, M.get_set, if_neg (fun c => hx c.symm)]

theorem validateJSONRaw_integer_first_witness :
    validateJSONRaw Lib.sample "id" (.mk "42" none none) [("n", .int64 1)]
        = M.set [("n", .int64 1)] (getValidID "id") (.int64 42)
      ∧ M.get (validateJSONRaw Lib.sample "id" (.mk "42" none none) [("n", .int64 1)])
          (getValidID "id") = some (.int64 42)
      ∧ ∀ x, x ≠ getValidID "id" →
          M.get (validateJSONRaw Lib.sample "id" (.mk "42" none none) [("n", .int64 1)]) x
            = M.get [("n", .int64 1)] x :=
  validateJSONRaw_integer_first Lib.sample "id" "42" none none [("n", .int64 1)] 42 rfl

/-! ## A second pass of the map branch -/

theorem M.get_eq_some_iff (l : BsonM) (x : String) (v : Any) (hnd : (M.keys l).Nodup) :
    M.get l x = some v ↔ (x, v) ∈ l := by
  induction l with
  | nil => simp [M.get]
  | cons kv rest ih =>
    obtain ⟨k0, v0⟩ := kv
    have hk : M.keys ((k0, v0) :: rest) = k0 :: M.keys rest := rfl
    rw [hk, List.nodup_cons] at hnd
    by_cases h0 : k0 = x
    · subst h0
      have hnot : (k0, v) ∉ rest := fun hm => hnd.1 (List.mem_map_of_mem Prod.fst hm)
      simp [M.get, hnot, eq_comm]
    · have hne : ¬ ((x, v) = (k0, v0)) := fun e => h0 (congrArg Prod.fst e).symm
      simp only [M.get, if_neg h0, List.mem_cons, hne, false_or]
      exact ih hnd.2

theorem mapLoop_nodup (includeID : Bool) (es : List (String × Any)) (acc : BsonM)
    (h : (M.keys acc).Nodup) : (M.keys (mapLoop includeID acc es)).Nodup := by
  induction es generalizing acc with
  | nil => exact h
  | cons kv rest ih =>
    obtain ⟨k, v⟩ := kv
    unfold mapLoop
    split
    · exact ih _ (M.nodup_keys_set acc _ _ h)
    · split
      · exact ih _ (M.nodup_keys_set acc _ _ h)
      · exact ih _ h

theorem mapLoop_get (includeID : Bool) (es : List (String × Any)) (acc : BsonM) (x : String)
    (hnd : (M.keys es).Nodup) (hcanon : ∀ k ∈ M.keys es, getValidID k = k)
    (hid : includeID = true ∨ "_id" ∉ M.keys es) :
    M.get (mapLoop includeID acc es) x = if x ∈ M.keys es then M.get es x else M.get acc x := by
  induction es generalizing acc with
  | nil => simp [mapLoop, M.keys]
  | cons kv rest ih =>
    obtain ⟨k, v⟩ := kv
    have hk : M.keys ((k, v) :: rest) = k :: M.keys rest := rfl
    rw [hk] at hnd hcanon hid
    rw [List.nodup_cons] at hnd
    have hck : getValidID k = k := hcanon k (List.mem_cons_self _ _)
    have hstep : mapLoop includeID acc ((k, v) :: rest)
        = mapLoop includeID (M.set acc k v) rest := by
      rcases hid with h | h
      · simp only [mapLoop, hck, h, if_true]
      · have hne : k ≠ "_id" := fun e => h (e ▸ List.mem_cons_self _ _)
        simp [mapLoop, hck, hne]
    have hid2 : includeID = true ∨ "_id" ∉ M.keys rest := by
      rcases hid with h | h
      · exact Or.inl h
      · exact Or.inr (fun hm => h (List.mem_cons_of_mem _ hm))
    rw [hstep, ih _ hnd.2 (fun j hj => hcanon j (List.mem_cons_of_mem _ hj)) hid2, hk]
    by_cases hx : k = x
    · subst hx
      simp [hnd.1, M.get, M.get_set]
    · have hx2 : ¬ x = k := fun e => hx e.symm
      simp only [List.mem_cons, hx2, false_or, M.get, if_neg hx, M.get_set]

/-- A second pass of the map branch over the document a first pass returned,
its entries visited in any order, gives the same map back, provided `includeID`
is true or the document has no key `_id`. -/
theorem mapLoop_second_pass (includeID : Bool) (entries es : List (String × Any))
    (hperm : es.Perm (mapLoop includeID [] entries))
    (hid : includeID = true ∨ "_id" ∉ M.keys (mapLoop includeID [] entries)) (x : String) :
    M.get (mapLoop includeID [] es) x = M.get (mapLoop includeID [] entries) x := by
  have hkeys : (M.keys es).Perm (M.keys (mapLoop includeID [] entries)) := hperm.map Prod.fst
  have hnd_d : (M.keys (mapLoop includeID [] entries)).Nodup :=
    mapLoop_nodup includeID entries [] (by simp [M.keys])
  have hnd : (M.keys es).Nodup := hkeys.nodup_iff.mpr hnd_d
  have hcanon : ∀ k ∈ M.keys es, getValidID k = k := by
    intro k hk
    rcases mapLoop_keys includeID entries [] k (hkeys.mem_iff.mp hk) with h | ⟨kv, _, e⟩
    · simp [M.keys] at h
    · rw [e, getValidID_idem]
  have hid2 : includeID = true ∨ "_id" ∉ M.keys es := by
    rcases hid with h | h
    · exact Or.inl h
    · exact Or.inr (fun hm => h (hkeys.mem_iff.mp hm))
  rw [mapLoop_get includeID es [] x hnd hcanon hid2]
  have hes : (if x ∈ M.keys es then M.get es x else M.get [] x) = M.get es x := by
    split
    · rfl
    · rename_i hx
      have := (M.mem_keys_iff es x).not.mp hx
      simp only [ne_eq, not_not] at this
      rw [this]; rfl
  rw [hes]
  apply Option.ext
  intro v
  simp only [Option.mem_def]
  rw [M.get_eq_some_iff es x v hnd, M.get_eq_some_iff _ x v hnd_d]
  exact hperm.mem_iff

/-- C15: with `includeID` false the map with the one key `id` is normalized to
the document with the one key `_id`, and normalizing that document again gives
the empty document, not the document itself. -/
theorem buildData_second_pass_drops_id :
    buildData Lib.sample (.mapPtr [("id", .int 7)]) false = .ok (.doc [("_id", .int 7)])
      ∧ buildData Lib.sample (.mapPtr [("_id", .int 7)]) false = .ok (.doc [])
      ∧ M.get [("_id", Any.int 7)] "_id" = some (.int 7)
      ∧ M.get ([] : BsonM) "_id" = none :=
  ⟨rfl, rfl, rfl, rfl⟩

/-! ## Switch and group stages -/

theorem switchLoop_ok (env : Env) (cases : List PipeSwitchCase) (compiled : List BsonM)
    (h : List.Forall₂ (fun c m => BuildFilterPtr env c.Case = .ok m) cases compiled)
    (branches : List BsonM) :
    switchLoop env branches cases
      = .ok (branches ++ List.zipWith
          (fun c m => [("case", Any.doc m), ("then", c.Then)]) cases compiled) := by
  induction h generalizing branches with
  | nil => simp [switchLoop, pure, Except.pure]
  | cons hhead _ ih =>
    simp only [switchLoop, hhead, bind, Except.bind]
    rw [ih]
    simp

/-- C17: when the conditions of the cases compile to `compiled` (case by case,
in order), `PipeSwitch` returns the one-key map from `$switch` to the map with
`default` and with `branches`, one branch per case in the order of the cases,
each branch holding the compiled condition under `case` and the result value
under `then`. -/
theorem pipeSwitch_branches (env : Env) (switchCase : PipeSwitchParams) (compiled : List BsonM)
    (h : List.Forall₂ (fun c m => BuildFilterPtr env c.Case = .ok m)
      switchCase.Cases compiled) :
    PipeSwitch env switchCase
        = .ok [("$switch", .doc [("default", switchCase.Default),
            ("branches", .docs (List.zipWith
              (fun c m => [("case", Any.doc m), ("then", c.Then)])
              switchCase.Cases compiled))])]
      ∧ (List.zipWith (fun c m => [("case", Any.doc m), ("then", c.Then)])
          switchCase.Cases compiled).length = switchCase.Cases.length := by
  constructor
  · unfold PipeSwitch
    simp only [switchLoop_ok env switchCase.Cases compiled h, bind, Except.bind]
    rfl
  · rw [List.length_zipWith, h.length_eq, Nat.min_self]

theorem pipeSwitch_branches_witness :
    PipeSwitch Env.sample
        ⟨[⟨some (Lt "age" (.int 18)), .str "minor"⟩, ⟨some (Gte "age" (.int 65)), .str "senior"⟩],
          .str "adult"⟩
        = .ok [("$switch", .doc [("default", .str "adult"),
            ("branches", .docs [
              [("case", .doc [("age", .doc [("$lt", .int 18)])]), ("then", .str "minor")],
              [("case", .doc [("age", .doc [("$gte", .int 65)])]), ("then", .str "senior")]])])]
      ∧ [[("case", Any.doc [("age", .doc [("$lt", .int 18)])]), ("then", Any.str "minor")],
          [("case", Any.doc [("age", .doc [("$gte", .int 65)])]), ("then", Any.str "senior")]].length
          = 2 :=
  pipeSwitch_branches Env.sample
    ⟨[⟨some (Lt "age" (.int 18)), .str "minor"⟩, ⟨some (Gte "age" (.int 65)), .str "senior"⟩],
      .str "adult"⟩
    [[("age", .doc [("$lt", .int 18)])], [("age", .doc [("$gte", .int 65)])]]
    (List.Forall₂.cons rfl (List.Forall₂.cons rfl List.Forall₂.nil))

theorem M.mem_keys_set (m : BsonM) (k x : String) (v : Any) :
    x ∈ M.keys (M.set m k v) ↔ x ∈ M.keys m ∨ x = k := by
  rw [M.keys_set]
  split
  · rename_i hk
    constructor
    · exact Or.inl
    · rintro (h | h)
      · exact h
      · rw [h]; exact hk
  · simp

theorem groupLoop_keys (fields m : BsonM) (x : String) :
    x ∈ M.keys (groupLoop m fields) ↔ x ∈ M.keys m ∨ x ∈ M.keys fields := by
  induction fields generalizing m with
  | nil => simp [groupLoop, M.keys]
  | cons kv rest ih =>
    obtain ⟨k, v⟩ := kv
    have hk : M.keys ((k, v) :: rest) = k :: M.keys rest := rfl
    simp only [groupLoop]
    rw [ih, M.mem_keys_set, hk, List.mem_cons]
    tauto

theorem groupLoop_nodup (fields m : BsonM) (h : (M.keys m).Nodup) :
    (M.keys (groupLoop m fields)).Nodup := by
  induction fields generalizing m with
  | nil => exact h
  | cons kv rest ih =>
    obtain ⟨k, v⟩ := kv
    exact ih _ (M.nodup_keys_set m k v h)

theorem groupLoop_get_absent (fields m : BsonM) (x : String) (hx : x ∉ M.keys fields) :
    M.get (groupLoop m fields) x = M.get m x := by
  induction fields generalizing m with
  | nil => rfl
  | cons kv rest ih =>
    obtain ⟨k, v⟩ := kv
    have hk : M.keys ((k, v) :: rest) = k :: M.keys rest := rfl
    rw [hk, List.mem_cons, not_or] at hx
    simp only [groupLoop]
    rw [ih _ hx.2, M.get_set, if_neg (fun e => hx.1 e.symm)]

theorem groupLoop_get_present (fields m : BsonM) (k : String) (v : Any)
    (hnd : (M.keys fields).Nodup) (hkv : (k, v) ∈ fields) :
    M.get (groupLoop m fields) k = some v := by
  induction fields generalizing m with
  | nil => cases hkv
  | cons kv rest ih =>
    obtain ⟨k0, v0⟩ := kv
    have hk : M.keys ((k0, v0) :: rest) = k0 :: M.keys rest := rfl
    rw [hk, List.nodup_cons] at hnd
    simp only [groupLoop]
    rcases List.mem_cons.mp hkv with e | hmem
    · cases e
      rw [groupLoop_get_absent rest _ k hnd.1, M.get_set, if_pos rfl]
    · exact ih _ hnd.2 hmem

/-- C16 (amended): for a group key `id` and a map `fields` (no key twice),
`PipeGroup` returns the one-key map from `$group` to a map that sends every key
of `fields` to its value in `fields`, sends `_id` to `id` when `fields` has no
key `_id`, and has no key other than `_id` and the keys of `fields`. -/
theorem pipeGroup_merges (id : String) (fields : BsonM) (hnd : (M.keys fields).Nodup) :
    ∃ g : BsonM, PipeGroup id fields = [("$group", .doc g)]
      ∧ (M.keys g).Nodup
      ∧ (∀ k v, (k, v) ∈ fields → M.get g k = some v)
      ∧ ("_id" ∉ M.keys fields → M.get g "_id" = some (.str id))
      ∧ (∀ x, x ∈ M.keys g ↔ x = "_id" ∨ x ∈ M.keys fields) := by
  refine ⟨groupLoop [("_id", .str id)] fields, rfl, ?_, ?_, ?_, ?_⟩
  · exact groupLoop_nodup fields _ (by simp [M.keys])
  · intro k v hkv
    exact groupLoop_get_present fields _ k v hnd hkv
  · intro h
    rw [groupLoop_get_absent fields _ "_id" h]
    rfl
  · intro x
    rw [groupLoop_keys]
    simp [M.keys]

theorem pipeGroup_merges_witness :
    ∃ g : BsonM, PipeGroup "$dept" [("total", .doc [("$sum", .int 1)])] = [("$group", .doc g)]
      ∧ (M.keys g).Nodup
      ∧ (∀ k v, (k, v) ∈ [("total", Any.doc [("$sum", .int 1)])] → M.get g k = some v)
      ∧ ("_id" ∉ M.keys [("total", Any.doc [("$sum", .int 1)])] →
          M.get g "_id" = some (.str "$dept"))
      ∧ (∀ x, x ∈ M.keys g ↔ x = "_id" ∨ x ∈ M.keys [("total", Any.doc [("$sum", .int 1)])]) :=
  pipeGroup_merges "$dept" [("total", .doc [("$sum", .int 1)])] (by simp [M.keys])

/-- C16 (as stated, refuted): when `fields` has the key `_id`, the group map
sends `_id` to the value `fields` gives it, not to the group key. -/
theorem pipeGroup_id_overwritten :
    PipeGroup "$dept" [("_id", .str "$team")] = [("$group", .doc [("_id", .str "$team")])]
      ∧ M.get [("_id", Any.str "$team")] "_id" = some (.str "$team")
      ∧ M.get [("_id", Any.str "$team")] "_id" ≠ some (.str "$dept") :=
  ⟨rfl, rfl, by simp [M.get]⟩

/-! ## The pipeline of a fresh builder -/

theorem pipe_Timeout (s : Set) (n : Int) : (s.Timeout n).pipe = s.pipe := rfl

theorem pipe_Sort (s : Set) (f b : String) : (s.Sort f b).pipe = s.pipe := rfl

theorem pipe_Table (s : Set) (t : String) : (s.Table t).pipe = s.pipe := rfl

theorem pipe_Result (s : Set) (r : Any) : (s.Result r).pipe = s.pipe := rfl

theorem pipe_Limit (s : Set) (n : Int) : (s.Limit n).pipe = s.pipe := rfl

theorem pipe_Skip (s : Set) (n : Int) : (s.Skip n).pipe = s.pipe := rfl

/-- C18 (amended): a builder made by `newSet` with no parameters, or with
parameters that carry no filter and no explicit pipeline, holds the empty
compiled filter, and `buildPipe` on it returns the stage `$match` of the empty
map followed by the skip, limit and sort stages that are set; with no
parameters that is the `$match` stage alone. -/
theorem buildPipe_fresh_builder (env : Env) (params : Option SetParams)
    (h : ∀ p, params = some p → p.Filter = none ∧ p.Pipe = none) :
    ∃ s, newSet env params = .ok s
      ∧ s.filter = Any.doc []
      ∧ s.buildPipe
          = .ok ([[("$match", Any.doc [])]] ++ skipPart s ++ limitPart s ++ sortPart s)
      ∧ (params = none → s.buildPipe = .ok [[("$match", Any.doc [])]]) := by
  cases params with
  | none => exact ⟨_, rfl, rfl, rfl, fun _ => rfl⟩
  | some p =>
    obtain ⟨hf, hp⟩ := h p rfl
    have hnew : ∃ s, newSet env (some p) = .ok s ∧ s.filter = Any.doc [] ∧ s.pipe = none := by
      cases hres : newSet env (some p) with
      | error e =>
        dsimp only [newSet] at hres
        rw [hf] at hres
        cases hres
      | ok s =>
        refine ⟨s, rfl, ?_, ?_⟩
        · dsimp only [newSet] at hres
          rw [hf, hp] at hres
          cases hres
          simp only [Option.isSome_none, Bool.false_eq_true, if_false,
            apply_ite Set.filter, filter_Timeout, filter_Sort, filter_Table, filter_Result,
            filter_Limit, filter_Skip, ite_self]
        · dsimp only [newSet] at hres
          rw [hf, hp] at hres
          cases hres
          simp only [Option.isSome_none, Bool.false_eq_true, if_false,
            apply_ite Set.pipe, pipe_Timeout, pipe_Sort, pipe_Table, pipe_Result,
            pipe_Limit, pipe_Skip, ite_self]
          rfl
    obtain ⟨s, hs, hfilter, hpipe⟩ := hnew
    refine ⟨s, hs, hfilter, ?_, fun e => by cases e⟩
    have hparts := buildPipe_parts s [] hfilter
    have hhead : headPart s [] = [[("$match", Any.doc [])]] := by
      unfold headPart
      rw [hpipe]
    rw [hhead] at hparts
    exact hparts

theorem buildPipe_fresh_builder_witness :
    ∃ s, newSet Env.sample none = .ok s
      ∧ s.filter = Any.doc []
      ∧ s.buildPipe
          = .ok ([[("$match", Any.doc [])]] ++ skipPart s ++ limitPart s ++ sortPart s)
      ∧ ((none : Option SetParams) = none → s.buildPipe = .ok [[("$match", Any.doc [])]]) :=
  buildPipe_fresh_builder Env.sample none (fun _ e => by cases e)

/-- C18 (as stated, refuted): the pipeline of a builder made with no parameters,
on which neither `Filter` nor `Pipe` was called, is not empty: it is the one
stage `$match` of the empty map. -/
theorem buildPipe_fresh_has_match :
    (newSet Env.sample none).bind Set.buildPipe = .ok [[("$match", Any.doc [])]]
      ∧ M.get [("$match", Any.doc [])] "$match" = some (.doc []) :=
  ⟨rfl, rfl⟩

/-! ## The clock -/

theorem buildBounds_clock (env₁ env₂ : Env) (field : String) (value : Any)
    (lower upper : String) :
    buildBounds env₁ field value lower upper = buildBounds env₂ field value lower upper := by
  cases value with
  | slice xs =>
    cases xs with
    | nil => rfl
    | cons x rest => cases x <;> rfl
  | _ => rfl

theorem sprintS_clock (now₁ now₂ : Nat → Time) (fmtS : Any → String) (value : Any) :
    Env.sprintS ⟨now₁, fmtS⟩ value = Env.sprintS ⟨now₂, fmtS⟩ value := by
  cases value <;> rfl

theorem BuildFilter_clock_step (now₁ now₂ : Nat → Time) (fmtS : Any → String)
    (items : List (Option Filter)) (field : String) (op : FilterOptions) (value : Any)
    (hitems : buildItems ⟨now₁, fmtS⟩ [] items = buildItems ⟨now₂, fmtS⟩ [] items)
    (hvalue : ∀ p, value = Any.filter p →
      BuildFilterPtr ⟨now₁, fmtS⟩ p = BuildFilterPtr ⟨now₂, fmtS⟩ p) :
    BuildFilter ⟨now₁, fmtS⟩ (.mk items field op value)
      = BuildFilter ⟨now₂, fmtS⟩ (.mk items field op value) := by
  rw [BuildFilter.eq_def, BuildFilter.eq_def]
  simp only [hitems, buildBounds_clock ⟨now₁, fmtS⟩ ⟨now₂, fmtS⟩ field value,
    sprintS_clock now₁ now₂ fmtS value]
  cases value with
  | filter p => simp only [hvalue p rfl]
  | _ => rfl

mutual
theorem BuildFilter_clock (now₁ now₂ : Nat → Time) (fmtS : Any → String) :
    ∀ f : Filter, BuildFilter ⟨now₁, fmtS⟩ f = BuildFilter ⟨now₂, fmtS⟩ f
  | .mk items field op (.filter p) =>
    BuildFilter_clock_step now₁ now₂ fmtS items field op (.filter p)
      (buildItems_clock now₁ now₂ fmtS items [])
      (fun q hq => by cases hq; exact BuildFilterPtr_clock now₁ now₂ fmtS p)
  | .mk items field op .nil | .mk items field op (.bool _) | .mk items field op (.int _)
  | .mk items field op (.int64 _) | .mk items field op (.float64 _)
  | .mk items field op (.str _) | .mk items field op (.time _) | .mk items field op (.bytes _)
  | .mk items field op (.intPtr _) | .mk items field op (.strs _)
  | .mk items field op (.slice _) | .mk items field op (.doc _)
  | .mk items field op (.docs _) =>
    BuildFilter_clock_step now₁ now₂ fmtS items field op _
      (buildItems_clock now₁ now₂ fmtS items []) (fun _ hq => nomatch hq)
theorem BuildFilterPtr_clock (now₁ now₂ : Nat → Time) (fmtS : Any → String) :
    ∀ p : Option Filter, BuildFilterPtr ⟨now₁, fmtS⟩ p = BuildFilterPtr ⟨now₂, fmtS⟩ p
  | none => rfl
  | some f => BuildFilter_clock now₁ now₂ fmtS f
theorem buildItems_clock (now₁ now₂ : Nat → Time) (fmtS : Any → String) :
    ∀ (items : List (Option Filter)) (acc : List Any),
      buildItems ⟨now₁, fmtS⟩ acc items = buildItems ⟨now₂, fmtS⟩ acc items
  | [], _ => rfl
  | fi :: rest, acc => by
    simp only [buildItems, BuildFilterPtr_clock now₁ now₂ fmtS fi,
      buildItems_clock now₁ now₂ fmtS rest]
end

/-- C21: the result of `BuildFilter` does not depend on the readings of the
clock: two runs that differ only in what `time.Now()` returns give the same
result on every node (the same map when the call returns, the same failure when
it does not), and with timestamp bounds `a` and `b` the four range builders emit
exactly `a` and `b`. -/
theorem buildFilter_clock_independent (now₁ now₂ : Nat → Time) (fmtS : Any → String)
    (node : Filter) (f : String) (a b : Time) :
    BuildFilter ⟨now₁, fmtS⟩ node = BuildFilter ⟨now₂, fmtS⟩ node
      ∧ BuildFilter ⟨now₁, fmtS⟩ (Range f (.time a) (.time b))
          = .ok [(f, .doc [("$gt", .time a), ("$lt", .time b)])]
      ∧ BuildFilter ⟨now₁, fmtS⟩ (Between f (.time a) (.time b))
          = .ok [(f, .doc [("$gt", .time a), ("$lt", .time b)])]
      ∧ BuildFilter ⟨now₁, fmtS⟩ (RangeEq f (.time a) (.time b))
          = .ok [(f, .doc [("$gte", .time a), ("$lte", .time b)])]
      ∧ BuildFilter ⟨now₁, fmtS⟩ (BetweenEq f (.time a) (.time b))
          = .ok [(f, .doc [("$gte", .time a), ("$lte", .time b)])] :=
  ⟨BuildFilter_clock now₁ now₂ fmtS node, rfl, rfl, rfl, rfl⟩

end Gomongo
